import Mathlib

/-!
Shallow embedding of the client metrics screen (`src/app/client-metrics.tsx`)
and of the metrics store it consumes. Numeric values are modelled as rationals;
JavaScript numbers that may be non-finite are modelled by `JSNum`.
-/

namespace ClientMetrics

/-- One recorded observation for a metric type, as consumed by the screen:
a measured value plus a display unit and the human-readable capture date and time. -/
structure Entry where
  value : ℚ
  unit : String
  date : String
  time : String
deriving DecidableEq, Repr

instance : Inhabited Entry := ⟨⟨0, "", "", ""⟩⟩

/-- The per-type aggregate held by the store: the entry history (newest first),
the derived current value and the formatted last-updated timestamp. -/
structure Metric where
  entries : List Entry
  currentValue : ℚ
  lastUpdated : String
deriving DecidableEq, Repr

/-- The snapshot mapping metric keys to their `Metric` records. Modelled as an
association list, mirroring a JavaScript object with its key insertion order. -/
abbrev MetricData := List (String × Metric)

/-- One row of the static `metricConfigs` table of the screen. -/
structure MetricConfig where
  key : String
  name : String
  unit : String
  icon : String
  color : String
deriving DecidableEq, Repr

/-- The static metric catalog `metricConfigs` from `src/app/client-metrics.tsx`. -/
def metricConfigs : List MetricConfig :=
  [⟨"weight", "Weight", "kg", "⚖️", "#3B82F6"⟩,
   ⟨"chest", "Chest", "in", "💪", "#10B981"⟩,
   ⟨"shoulders", "Shoulders", "in", "🏋️", "#F59E0B"⟩,
   ⟨"waist", "Waist", "in", "📏", "#EF4444"⟩,
   ⟨"thigh", "Thigh", "in", "🦵", "#8B5CF6"⟩,
   ⟨"hip", "Hip", "in", "📐", "#EC4899"⟩,
   ⟨"bodyFat", "Body Fat", "%", "📊", "#06B6D4"⟩,
   ⟨"bicep", "Bicep", "in", "💪", "#84CC16"⟩,
   ⟨"waterIntake", "Water Intake", "L", "💧", "#0EA5E9"⟩,
   ⟨"steps", "Steps", "steps", "👣", "#F97316"⟩]

/-- The catalog's `list()` operation: the ordered sequence of configs. -/
def listConfigs : List MetricConfig := metricConfigs

/-- The set of known metric keys, in catalog order. -/
def catalogKeys : List String := metricConfigs.map MetricConfig.key

/-- A JavaScript number: either a finite value (modelled as a rational) or one of
the non-finite values `NaN`, `Infinity`, `-Infinity`. -/
inductive JSNum where
  | num (q : ℚ)
  | nan
  | inf
  | negInf
deriving DecidableEq, Repr

/-- The `isNaN` test on a JavaScript number. -/
def JSNum.isNaNb : JSNum → Bool
  | JSNum.nan => true
  | _ => false

/-- The `Number.isFinite` test on a JavaScript number. -/
def JSNum.isFiniteb : JSNum → Bool
  | JSNum.num _ => true
  | _ => false

/-- Result record of `getMetricChange`: `{ value, isPositive }`. -/
structure MetricChange where
  value : ℚ
  isPositive : Bool
deriving DecidableEq, Repr

/-- Translation of `getMetricChange` (lines 115-126 of `src/app/client-metrics.tsx`):
returns `null` for fewer than two entries, otherwise the absolute change between the
two newest entries together with the sign convention `change >= 0`. -/
def getMetricChange (metric : Metric) : Option MetricChange :=
  if metric.entries.length < 2 then none
  else
    let latest := (metric.entries.getD 0 default).value
    let previous := (metric.entries.getD 1 default).value
    let change := latest - previous
    some ⟨|change|, decide (change ≥ 0)⟩

/-- Translation of `Math.max(...values)` as applied to a non-empty spread list. -/
def jsMathMax : List ℚ → ℚ
  | [] => 0
  | v :: vs => vs.foldl max v

/-- Translation of `Math.min(...values)` as applied to a non-empty spread list. -/
def jsMathMin : List ℚ → ℚ
  | [] => 0
  | v :: vs => vs.foldl min v

/-- The Total Entries statistic of `renderMetricDetail`: `metric.entries.length`. -/
def statsCount (metric : Metric) : ℕ := metric.entries.length

/-- The Highest statistic of `renderMetricDetail`:
`entries.length > 0 ? Math.max(...entries.map(e => e.value)) : '--'`,
with the `'--'` placeholder modelled as `none`. -/
def statsMax (metric : Metric) : Option ℚ :=
  if metric.entries.length > 0 then some (jsMathMax (metric.entries.map Entry.value))
  else none

/-- The Lowest statistic of `renderMetricDetail`, `Math.min` over all entry values,
`none` standing for the `'--'` placeholder. -/
def statsMin (metric : Metric) : Option ℚ :=
  if metric.entries.length > 0 then some (jsMathMin (metric.entries.map Entry.value))
  else none

/-- The Average statistic of `renderMetricDetail`:
`entries.reduce((sum, e) => sum + e.value, 0) / entries.length` when non-empty,
`none` standing for the `'--'` placeholder. -/
def statsMean (metric : Metric) : Option ℚ :=
  if metric.entries.length > 0 then
    some ((metric.entries.foldl (fun sum e => sum + e.value) 0) / (metric.entries.length : ℚ))
  else none

/-- Display rounding `.toFixed(1)` of the screen, modelled on rationals:
round to one decimal place. Applied after aggregation, never inside it. -/
def jsToFixed1 (q : ℚ) : ℚ := ((round (q * 10) : ℤ) : ℚ) / 10

/-- What the screen interpolates for a current value: the `'--'` placeholder or a number. -/
inductive ValueDisplay where
  | placeholder
  | shown (q : ℚ)
deriving DecidableEq, Repr

/-- Translation of the metric card value text `{metric?.currentValue || '--'}`
(line 153): an absent metric or a JS-falsy `currentValue` (in particular `0`)
falls back to the `'--'` placeholder. -/
def cardCurrentValueText (metric : Option Metric) : ValueDisplay :=
  match metric with
  | none => ValueDisplay.placeholder
  | some m =>
    if m.currentValue = 0 then ValueDisplay.placeholder else ValueDisplay.shown m.currentValue

/-- Translation of the add-entry hint `Current: {metrics[selectedMetric]?.currentValue || '--'}`
(line 437): the same falsy fallback as the card. -/
def hintCurrentValueText (metric : Option Metric) : ValueDisplay :=
  match metric with
  | none => ValueDisplay.placeholder
  | some m =>
    if m.currentValue = 0 then ValueDisplay.placeholder else ValueDisplay.shown m.currentValue

/-- The filter predicate of the Improving overview card (lines 353-356):
`if (m.entries.length < 2) return false; return m.entries[0].value > m.entries[1].value`. -/
def improvingPred (m : Metric) : Bool :=
  if m.entries.length < 2 then false
  else decide ((m.entries.getD 0 default).value > (m.entries.getD 1 default).value)

/-- The Improving overview count: `Object.values(metrics).filter(...).length`. -/
def improvingCount (metrics : MetricData) : ℕ :=
  ((metrics.map Prod.snd).filter improvingPred).length

/-- Whitespace as skipped by `parseFloat`. -/
def jsIsSpace (c : Char) : Bool := c = ' ' ∨ c = '\t' ∨ c = '\n' ∨ c = '\r'

/-- Drop leading whitespace. -/
def skipWs : List Char → List Char
  | [] => []
  | c :: cs => if jsIsSpace c then skipWs cs else c :: cs

/-- Model of JavaScript `String.prototype.trim`: drop whitespace at both ends. -/
def jsTrim (s : String) : String :=
  String.mk ((skipWs (skipWs s.toList).reverse).reverse)

/-- Consume an optional sign; returns whether the number is negated. -/
def splitSign : List Char → Bool × List Char
  | '-' :: cs => (true, cs)
  | '+' :: cs => (false, cs)
  | cs => (false, cs)

/-- Take the longest run of leading decimal digits. -/
def takeDigits : List Char → List Char × List Char
  | [] => ([], [])
  | c :: cs =>
    if c.isDigit then
      let p := takeDigits cs
      (c :: p.1, p.2)
    else ([], c :: cs)

/-- Numeric value of a digit run. -/
def digitsToNat (ds : List Char) : ℕ :=
  ds.foldl (fun acc c => 10 * acc + (c.toNat - 48)) 0

/-- Parse the optional exponent part `e`/`E` with optional sign; an exponent
marker not followed by digits is not part of the number (value 0). -/
def parseExp : List Char → ℤ
  | [] => 0
  | c :: cs =>
    if c = 'e' ∨ c = 'E' then
      let s := splitSign cs
      let p := takeDigits s.2
      if p.1.isEmpty then 0
      else if s.1 then -(digitsToNat p.1 : ℤ) else (digitsToNat p.1 : ℤ)
    else 0

/-- Model of JavaScript `parseFloat`: skip leading whitespace, take an optional
sign, then either a literal `Infinity` or the longest decimal-number front
(integer digits, optional fraction, optional exponent); any trailing characters
are ignored; if no number can be read the result is `NaN`. -/
def parseFloat (s : String) : JSNum :=
  let cs := skipWs s.toList
  let sg := splitSign cs
  if sg.2.take 8 = "Infinity".toList then
    if sg.1 then JSNum.negInf else JSNum.inf
  else
    let ip := takeDigits sg.2
    let fp :=
      match ip.2 with
      | '.' :: rest => takeDigits rest
      | _ => ([], ip.2)
    if ip.1.isEmpty ∧ fp.1.isEmpty then JSNum.nan
    else
      let mant : ℚ := (digitsToNat ip.1 : ℚ) + (digitsToNat fp.1 : ℚ) / 10 ^ fp.1.length
      let signedMant := if sg.1 then -mant else mant
      JSNum.num (signedMant * (10 : ℚ) ^ parseExp fp.2)

/-- Translation of the guard logic of `handleSaveEntry` (lines 91-113): the call
to `addMetricEntry(selectedMetric, value)` happens exactly when a metric is
selected, the trimmed input is non-empty and `parseFloat` of the input is not
`NaN`; the result records the forwarded key and value, `none` meaning no call. -/
def handleSaveEntry (selectedMetric : Option String) (newValue : String) :
    Option (String × JSNum) :=
  match selectedMetric with
  | none => none
  | some key =>
    if jsTrim newValue = "" then none
    else
      let value := parseFloat newValue
      if value.isNaNb then none
      else some (key, value)

/-- Error taxonomy of the store's `appendEntry`, from the spec's §7. -/
inductive AppendError where
  | validationError
  | invalidValueError
deriving DecidableEq, Repr

/-- Update (or insert at the end, as a JavaScript object would) the record for a key. -/
def setKey : MetricData → String → Metric → MetricData
  | [], key, m => [(key, m)]
  | (k1, m1) :: rest, key, m =>
    if k1 = key then (key, m) :: rest else (k1, m1) :: setKey rest key m

/-- The entry history currently stored for a key (empty when the key is absent). -/
def metricEntries (d : MetricData) (key : String) : List Entry :=
  ((d.lookup key).map Metric.entries).getD []

/-- The display unit the catalog assigns to a key. -/
def unitOf (key : String) : String :=
  ((metricConfigs.find? (fun c => c.key == key)).map MetricConfig.unit).getD ""

/-- Modelled from the spec: `appendEntry` of the Metric Store
(`@/utils/metricsStorage`, imported by the screen but absent from the sources).
Per §4.2 it validates the key against the catalog (`ValidationError`), requires a
finite numeric value (`InvalidValueError`), builds the new `Entry` with the unit
copied from the catalog and the capture date/time, prepends it to the key's
history, recomputes `currentValue` and `lastUpdated` from the new head, and
returns the updated snapshot. -/
def appendEntry (key : String) (value : JSNum) (date time lastUpdated : String)
    (d : MetricData) : Except AppendError MetricData :=
  if key ∈ catalogKeys then
    match value with
    | JSNum.num q =>
      Except.ok (setKey d key ⟨⟨q, unitOf key, date, time⟩ :: metricEntries d key, q, lastUpdated⟩)
    | _ => Except.error AppendError.invalidValueError
  else Except.error AppendError.validationError

/-- Modelled from the spec: the store persists the whole snapshot on a successful
append, and on any failure leaves the persisted document completely unchanged
(spec §7: no partial-success state). The result is the persisted state after the call. -/
def persistedAfterAppend (d : MetricData) (key : String) (value : JSNum)
    (date time lastUpdated : String) : MetricData :=
  match appendEntry key value date time lastUpdated d with
  | Except.ok d2 => d2
  | Except.error _ => d

/-- The caller-supplied data of one append call: the value and the capture timestamps. -/
structure AppendOp where
  value : ℚ
  date : String
  time : String
  lastUpdated : String
deriving DecidableEq, Repr

instance : Inhabited AppendOp := ⟨⟨0, "", "", ""⟩⟩

/-- The entry a successful append for a key constructs from one call's data. -/
def mkEntry (key : String) (op : AppendOp) : Entry :=
  ⟨op.value, unitOf key, op.date, op.time⟩

/-- Run a sequence of finite-valued append calls against one key, persisting after each. -/
def runAppendOps (key : String) (ops : List AppendOp) (d : MetricData) : MetricData :=
  ops.foldl
    (fun acc op => persistedAfterAppend acc key (JSNum.num op.value) op.date op.time op.lastUpdated)
    d

/-- The last element of a non-empty op list (`default` on the empty list). -/
def lastOp (ops : List AppendOp) : AppendOp := ops.getLast?.getD default

/-- A metric whose two newest entries are tied at 5. -/
def tieMetric : Metric :=
  ⟨[⟨5, "kg", "2024-01-02", "08:00"⟩, ⟨5, "kg", "2024-01-01", "08:00"⟩], 5, "2024-01-02"⟩

/-- The spec's statistics example: entries with values 70.0, 72.5, 68.0 (newest first). -/
def exampleMetric3 : Metric :=
  ⟨[⟨70, "kg", "2024-01-03", "08:00"⟩, ⟨72.5, "kg", "2024-01-02", "08:00"⟩,
    ⟨68, "kg", "2024-01-01", "08:00"⟩], 70, "2024-01-03"⟩

/-- A metric that has never been recorded into: no entries. -/
def emptyMetric : Metric := ⟨[], 0, ""⟩

/-- A metric whose recorded current value is exactly 0. -/
def zeroMetric : Metric := ⟨[⟨0, "kg", "2024-01-01", "08:00"⟩], 0, "2024-01-01"⟩

/-- Two concrete append calls used to instantiate the ordering invariant. -/
def opA : AppendOp := ⟨70, "2024-01-01", "08:00", "Jan 1"⟩

/-- Second concrete append call. -/
def opB : AppendOp := ⟨71, "2024-01-02", "09:00", "Jan 2"⟩

/-- The snapshot produced by appending value 70 to `weight` in an empty store. -/
def weightOnce : MetricData :=
  [("weight", ⟨[⟨70, "kg", "2024-01-01", "08:00"⟩], 70, "Jan 1"⟩)]

/-! Helper lemmas. -/

theorem lookup_setKey_self (d : MetricData) (key : String) (m : Metric) :
    (setKey d key m).lookup key = some m := by
  induction d with
  | nil => simp [setKey, List.lookup]
  | cons p rest ih =>
    obtain ⟨k1, m1⟩ := p
    by_cases h : k1 = key
    · subst h
      simp [setKey, List.lookup]
    · simp only [setKey, if_neg h, List.lookup]
      have : (key == k1) = false := by
        simp [beq_eq_false_iff_ne]
        exact fun he => h he.symm
      rw [this]
      exact ih

theorem lookup_setKey_ne (d : MetricData) (key k2 : String) (m : Metric) (h : k2 ≠ key) :
    (setKey d key m).lookup k2 = d.lookup k2 := by
  induction d with
  | nil =>
    have hb : (k2 == key) = false := by simp [beq_eq_false_iff_ne, h]
    simp [setKey, List.lookup, hb]
  | cons p rest ih =>
    obtain ⟨k1, m1⟩ := p
    by_cases h1 : k1 = key
    · subst h1
      simp only [setKey, if_pos rfl, List.lookup]
      have : (k2 == k1) = false := by simp [beq_eq_false_iff_ne, h]
      rw [this]
    · simp only [setKey, if_neg h1, List.lookup]
      rw [ih]

theorem metricEntries_setKey_self (d : MetricData) (key : String) (m : Metric) :
    metricEntries (setKey d key m) key = m.entries := by
  simp [metricEntries, lookup_setKey_self]

theorem init_le_foldl_max (vs : List ℚ) : ∀ v : ℚ, v ≤ vs.foldl max v := by
  induction vs with
  | nil => intro v; simp
  | cons w ws ih =>
    intro v
    calc v ≤ max v w := le_max_left v w
    _ ≤ ws.foldl max (max v w) := ih (max v w)

theorem mem_le_foldl_max (vs : List ℚ) : ∀ (v x : ℚ), x ∈ vs → x ≤ vs.foldl max v := by
  induction vs with
  | nil => intro v x hx; simp at hx
  | cons w ws ih =>
    intro v x hx
    rcases List.mem_cons.mp hx with h | h
    · subst h
      calc x ≤ max v x := le_max_right v x
      _ ≤ ws.foldl max (max v x) := init_le_foldl_max ws (max v x)
    · exact ih (max v w) x h

theorem foldl_max_mem (vs : List ℚ) : ∀ v : ℚ, vs.foldl max v ∈ v :: vs := by
  induction vs with
  | nil => intro v; simp
  | cons w ws ih =>
    intro v
    have h := ih (max v w)
    rcases List.mem_cons.mp h with h1 | h1
    · rcases max_choice v w with h2 | h2
      · rw [List.foldl_cons, h1, h2]; exact List.mem_cons_self v (w :: ws)
      · rw [List.foldl_cons, h1, h2]
        exact List.mem_cons_of_mem v (List.mem_cons_self w ws)
    · exact List.mem_cons_of_mem v (List.mem_cons_of_mem w h1)

theorem foldl_min_le_init (vs : List ℚ) : ∀ v : ℚ, vs.foldl min v ≤ v := by
  induction vs with
  | nil => intro v; simp
  | cons w ws ih =>
    intro v
    calc ws.foldl min (min v w) ≤ min v w := ih (min v w)
    _ ≤ v := min_le_left v w

theorem foldl_min_le_mem (vs : List ℚ) : ∀ (v x : ℚ), x ∈ vs → vs.foldl min v ≤ x := by
  induction vs with
  | nil => intro v x hx; simp at hx
  | cons w ws ih =>
    intro v x hx
    rcases List.mem_cons.mp hx with h | h
    · subst h
      calc ws.foldl min (min v x) ≤ min v x := foldl_min_le_init ws (min v x)
      _ ≤ x := min_le_right v x
    · exact ih (min v w) x h

theorem foldl_min_mem (vs : List ℚ) : ∀ v : ℚ, vs.foldl min v ∈ v :: vs := by
  induction vs with
  | nil => intro v; simp
  | cons w ws ih =>
    intro v
    have h := ih (min v w)
    rcases List.mem_cons.mp h with h1 | h1
    · rcases min_choice v w with h2 | h2
      · rw [List.foldl_cons, h1, h2]; exact List.mem_cons_self v (w :: ws)
      · rw [List.foldl_cons, h1, h2]
        exact List.mem_cons_of_mem v (List.mem_cons_self w ws)
    · exact List.mem_cons_of_mem v (List.mem_cons_of_mem w h1)

theorem foldl_add_value (l : List Entry) :
    ∀ a : ℚ, l.foldl (fun sum e => sum + e.value) a = a + (l.map Entry.value).sum := by
  induction l with
  | nil => intro a; simp
  | cons e es ih =>
    intro a
    simp only [List.foldl_cons, List.map_cons, List.sum_cons]
    rw [ih, add_assoc]

theorem persist_num (d : MetricData) (key : String) (hk : key ∈ catalogKeys)
    (q : ℚ) (date time lu : String) :
    persistedAfterAppend d key (JSNum.num q) date time lu =
      setKey d key ⟨⟨q, unitOf key, date, time⟩ :: metricEntries d key, q, lu⟩ := by
  simp [persistedAfterAppend, appendEntry, hk]

theorem runAppendOps_lookup (key : String) (hk : key ∈ catalogKeys) :
    ∀ (ops : List AppendOp) (d : MetricData), ops ≠ [] →
      (runAppendOps key ops d).lookup key =
        some ⟨(ops.map (mkEntry key)).reverse ++ metricEntries d key,
              (lastOp ops).value, (lastOp ops).lastUpdated⟩ := by
  intro ops
  induction ops with
  | nil => intro d h; exact absurd rfl h
  | cons op rest ih =>
    intro d _
    have hstep : runAppendOps key (op :: rest) d =
        runAppendOps key rest
          (setKey d key ⟨mkEntry key op :: metricEntries d key, op.value, op.lastUpdated⟩) := by
      simp [runAppendOps, List.foldl_cons, persist_num d key hk, mkEntry]
    by_cases hr : rest = []
    · subst hr
      rw [hstep]
      simp [runAppendOps, lookup_setKey_self, lastOp, mkEntry]
    · rw [hstep, ih _ hr]
      obtain ⟨b, l, rfl⟩ := List.exists_cons_of_ne_nil hr
      simp [metricEntries_setKey_self, lastOp, List.reverse_cons, List.append_assoc]

/-! Claim theorems. -/

/-- C2: the trend over a Metric is absent exactly when there are fewer than two
entries; otherwise its magnitude is the absolute difference between the two newest
values and `isPositive` holds exactly when the delta is nonnegative, so a tie
(delta equal to 0) is classified positive. -/
theorem getMetricChange_spec (m : Metric) :
    (getMetricChange m = none ↔ m.entries.length < 2) ∧
    (∀ e0 e1 rest, m.entries = e0 :: e1 :: rest →
      getMetricChange m =
        some ⟨|e0.value - e1.value|, decide (e0.value - e1.value ≥ 0)⟩) := by
  constructor
  · constructor
    · intro h
      by_contra hlen
      simp [getMetricChange, hlen] at h
    · intro h
      simp [getMetricChange, h]
  · intro e0 e1 rest h
    have hlen : ¬ m.entries.length < 2 := by
      rw [h]
      simp only [List.length_cons]
      omega
    simp [getMetricChange, hlen, h]

/-- Witness for C2 at the tie metric: the values 5 over 5 give a trend of
magnitude 0 that is classified positive. -/
theorem getMetricChange_spec_witness :
    getMetricChange tieMetric = some ⟨0, true⟩ := by
  have h := (getMetricChange_spec tieMetric).2 ⟨5, "kg", "2024-01-02", "08:00"⟩
    ⟨5, "kg", "2024-01-01", "08:00"⟩ [] rfl
  rw [h]
  simp

/-- C3: the statistics are computed over all entries: count is the full length, the
Highest and Lowest are attained maximum and minimum of all values, the Average is
the exact sum divided by the count, and one-decimal rounding is applied only
afterwards for display; on the spec's example values 70.0, 72.5, 68.0 this gives
count 3, max 72.5, min 68.0, mean 421/6 displayed as 70.2. -/
theorem jsToFixed1_mean_example : jsToFixed1 (421 / 6) = 70.2 := by
  have h1 : (421 / 6 : ℚ) * 10 + 1 / 2 = 4213 / 6 := by norm_num
  have h2 : ⌊(4213 / 6 : ℚ)⌋ = 702 := by
    rw [Int.floor_eq_iff]
    norm_num
  simp only [jsToFixed1]
  rw [round_eq, h1, h2]
  norm_num

theorem statsExample3 :
    statsCount exampleMetric3 = 3 ∧ statsMax exampleMetric3 = some 72.5 ∧
    statsMin exampleMetric3 = some 68 ∧ statsMean exampleMetric3 = some (421 / 6) := by
  refine ⟨rfl, ?_, ?_, ?_⟩
  · simp only [statsMax, exampleMetric3, jsMathMax, List.map_cons, List.map_nil]
    norm_num [max_def]
  · simp only [statsMin, exampleMetric3, jsMathMin, List.map_cons, List.map_nil]
    norm_num [min_def]
  · simp only [statsMean, exampleMetric3]
    norm_num

theorem statistics_all_entries (m : Metric) (hne : m.entries ≠ []) :
    statsCount m = m.entries.length ∧
    ((statsMax m).getD 0 ∈ m.entries.map Entry.value ∧
      ∀ v ∈ m.entries.map Entry.value, v ≤ (statsMax m).getD 0) ∧
    ((statsMin m).getD 0 ∈ m.entries.map Entry.value ∧
      ∀ v ∈ m.entries.map Entry.value, (statsMin m).getD 0 ≤ v) ∧
    (statsMax m).isSome = true ∧ (statsMin m).isSome = true ∧
    statsMean m = some ((m.entries.map Entry.value).sum / (m.entries.length : ℚ)) ∧
    (statsCount exampleMetric3 = 3 ∧ statsMax exampleMetric3 = some 72.5 ∧
      statsMin exampleMetric3 = some 68 ∧ statsMean exampleMetric3 = some (421 / 6) ∧
      jsToFixed1 (421 / 6) = 70.2) := by
  obtain ⟨e, es, hme⟩ := List.exists_cons_of_ne_nil hne
  have hlen : m.entries.length > 0 := by rw [hme]; simp
  have hmax : statsMax m = some ((es.map Entry.value).foldl max e.value) := by
    simp only [statsMax, hme, jsMathMax, List.map_cons]
    rw [if_pos (by simp)]
  have hmin : statsMin m = some ((es.map Entry.value).foldl min e.value) := by
    simp only [statsMin, hme, jsMathMin, List.map_cons]
    rw [if_pos (by simp)]
  refine ⟨rfl, ⟨?_, ?_⟩, ⟨?_, ?_⟩, ?_, ?_, ?_,
    statsExample3.1, statsExample3.2.1, statsExample3.2.2.1, statsExample3.2.2.2,
    jsToFixed1_mean_example⟩
  · rw [hmax, hme]
    simpa using foldl_max_mem (es.map Entry.value) e.value
  · intro v hv
    rw [hmax]
    rw [hme] at hv
    simp only [List.map_cons, List.mem_cons] at hv
    simp only [Option.getD_some]
    rcases hv with rfl | h
    · exact init_le_foldl_max (es.map Entry.value) e.value
    · exact mem_le_foldl_max (es.map Entry.value) e.value v h
  · rw [hmin, hme]
    simpa using foldl_min_mem (es.map Entry.value) e.value
  · intro v hv
    rw [hmin]
    rw [hme] at hv
    simp only [List.map_cons, List.mem_cons] at hv
    simp only [Option.getD_some]
    rcases hv with rfl | h
    · exact foldl_min_le_init (es.map Entry.value) e.value
    · exact foldl_min_le_mem (es.map Entry.value) e.value v h
  · rw [hmax]; rfl
  · rw [hmin]; rfl
  · simp only [statsMean, if_pos hlen]
    rw [foldl_add_value, zero_add]

/-- Witness for C3 at the spec's example metric with values 70.0, 72.5, 68.0. -/
theorem statistics_all_entries_witness :
    statsCount exampleMetric3 = exampleMetric3.entries.length ∧
    statsMean exampleMetric3 =
      some ((exampleMetric3.entries.map Entry.value).sum / (exampleMetric3.entries.length : ℚ)) := by
  have h := statistics_all_entries exampleMetric3 (by decide)
  exact ⟨h.1, h.2.2.2.2.2.1⟩

/-- C4: with an empty entry list the Highest, Lowest and Average statistics are all
absent (rendered as the placeholder, never a substituted 0), while the entry count
is 0. -/
theorem statistics_empty (m : Metric) (h : m.entries = []) :
    statsMax m = none ∧ statsMin m = none ∧ statsMean m = none ∧ statsCount m = 0 := by
  simp [statsMax, statsMin, statsMean, statsCount, h]

/-- Witness for C4 at the concrete empty metric. -/
theorem statistics_empty_witness :
    statsMax emptyMetric = none ∧ statsMin emptyMetric = none ∧
    statsMean emptyMetric = none ∧ statsCount emptyMetric = 0 :=
  statistics_empty emptyMetric rfl

/-- C7: the metric catalog is the fixed ordered list of ten descriptors with
pairwise-distinct keys, and the `list` operation returns exactly that sequence. -/
theorem metricConfigs_catalog :
    listConfigs = metricConfigs ∧
    metricConfigs.length = 10 ∧
    (metricConfigs.map MetricConfig.key).Nodup ∧
    metricConfigs.map MetricConfig.key =
      ["weight", "chest", "shoulders", "waist", "thigh", "hip",
       "bodyFat", "bicep", "waterIntake", "steps"] :=
  ⟨rfl, rfl, by decide, by decide⟩

/-- C8: a metric whose current value is 0 renders the `'--'` placeholder on the
metric card and in the add-entry hint, identically to a metric that was never
recorded. -/
theorem zero_renders_placeholder (m : Metric) (h : m.currentValue = 0) :
    cardCurrentValueText (some m) = ValueDisplay.placeholder ∧
    hintCurrentValueText (some m) = ValueDisplay.placeholder ∧
    cardCurrentValueText (some m) = cardCurrentValueText none ∧
    hintCurrentValueText (some m) = hintCurrentValueText none := by
  simp [cardCurrentValueText, hintCurrentValueText, h]

/-- Witness for C8 at the concrete metric with recorded value 0. -/
theorem zero_renders_placeholder_witness :
    cardCurrentValueText (some zeroMetric) = ValueDisplay.placeholder ∧
    hintCurrentValueText (some zeroMetric) = ValueDisplay.placeholder ∧
    cardCurrentValueText (some zeroMetric) = cardCurrentValueText none ∧
    hintCurrentValueText (some zeroMetric) = hintCurrentValueText none :=
  zero_renders_placeholder zeroMetric rfl

/-- C9: the Improving overview count is the number of metrics with at least two
entries whose newest value is strictly greater than the second newest; a metric
whose two newest values are tied is excluded, although `getMetricChange`
classifies that tie as positive. -/
theorem improvingCount_strict :
    (∀ d : MetricData, improvingCount d =
      ((d.map Prod.snd).filter fun m =>
        match m.entries with
        | e0 :: e1 :: _ => decide (e1.value < e0.value)
        | _ => false).length) ∧
    getMetricChange tieMetric = some ⟨0, true⟩ ∧
    improvingPred tieMetric = false ∧
    improvingCount [("weight", tieMetric)] = 0 := by
  refine ⟨?_, by simp [getMetricChange, tieMetric], by simp [improvingPred, tieMetric],
    by simp [improvingCount, improvingPred, tieMetric]⟩
  intro d
  have hp : improvingPred = fun m =>
      match m.entries with
      | e0 :: e1 :: _ => decide (e1.value < e0.value)
      | _ => false := by
    funext m
    cases hme : m.entries with
    | nil => simp [improvingPred, hme]
    | cons e0 t =>
      cases t with
      | nil => simp [improvingPred, hme]
      | cons e1 rest =>
        have hlen : ¬ m.entries.length < 2 := by
          rw [hme]
          simp only [List.length_cons]
          omega
        simp [improvingPred, hme, hlen]
  simp only [improvingCount]
  rw [hp]

/-- C10: the save handler forwards to `addMetricEntry` exactly when a metric is
selected, the trimmed input is non-empty and `parseFloat` of the input is not NaN;
it never forwards NaN, but makes no finiteness check, so "Infinity" is forwarded
as a non-finite value and "12abc" is forwarded as the number 12. -/
theorem handleSaveEntry_guard :
    (∀ (sel : Option String) (s : String),
      (handleSaveEntry sel s).isSome = true ↔
        (sel.isSome = true ∧ jsTrim s ≠ "" ∧ (parseFloat s).isNaNb = false)) ∧
    (∀ (sel : Option String) (s k : String) (v : JSNum),
      handleSaveEntry sel s = some (k, v) → v.isNaNb = false) ∧
    handleSaveEntry (some "weight") "Infinity" = some ("weight", JSNum.inf) ∧
    JSNum.inf.isFiniteb = false ∧
    handleSaveEntry (some "weight") "12abc" = some ("weight", JSNum.num 12) := by
  refine ⟨?_, ?_, by rfl, rfl, ?_⟩
  · intro sel s
    cases sel with
    | none => simp [handleSaveEntry]
    | some k =>
      by_cases ht : jsTrim s = ""
      · simp [handleSaveEntry, ht]
      · by_cases hn : (parseFloat s).isNaNb = true
        · simp [handleSaveEntry, ht, hn]
        · simp [handleSaveEntry, ht, hn]
  · intro sel s k v h
    cases sel with
    | none => simp [handleSaveEntry] at h
    | some k1 =>
      by_cases ht : jsTrim s = ""
      · simp [handleSaveEntry, ht] at h
      · by_cases hn : (parseFloat s).isNaNb = true
        · simp [handleSaveEntry, ht, hn] at h
        · simp [handleSaveEntry, ht, hn] at h
          rw [← h.2]
          simpa using hn
  · have h0 : parseFloat "12abc" =
        JSNum.num (((digitsToNat ['1', '2'] : ℚ) +
          (digitsToNat ([] : List Char) : ℚ) / 10 ^ ([] : List Char).length) *
          (10 : ℚ) ^ parseExp ['a', 'b', 'c']) := rfl
    have hp : parseFloat "12abc" = JSNum.num 12 := by
      rw [h0]
      norm_num [show digitsToNat ['1', '2'] = 12 from by decide,
        show digitsToNat ([] : List Char) = 0 from rfl,
        show parseExp ['a', 'b', 'c'] = 0 from by decide]
    have hne2 : jsTrim "12abc" ≠ "" := by decide
    simp only [handleSaveEntry]
    rw [if_neg hne2, hp]
    rfl

/-- Witness for C10: the guard passes "12abc" through as 12, which is not NaN,
and accepts the ordinary input "7.5". -/
theorem handleSaveEntry_guard_witness :
    (JSNum.num 12).isNaNb = false ∧ (handleSaveEntry (some "weight") "7.5").isSome = true :=
  ⟨handleSaveEntry_guard.2.1 (some "weight") "12abc" "weight" (JSNum.num 12)
      handleSaveEntry_guard.2.2.2.2,
   (handleSaveEntry_guard.1 (some "weight") "7.5").mpr ⟨rfl, by decide, by decide⟩⟩

/-- C5: `appendEntry` rejects a key outside the catalog with `ValidationError` and a
non-finite (including NaN) value with `InvalidValueError` — it never succeeds on a
non-finite value — and on either failure the persisted snapshot is exactly the one
from before the call. -/
theorem appendEntry_errors (key : String) (value : JSNum) (date time lu : String)
    (d : MetricData) :
    (key ∉ catalogKeys →
      appendEntry key value date time lu d = Except.error AppendError.validationError ∧
      persistedAfterAppend d key value date time lu = d) ∧
    (value.isFiniteb = false →
      (∀ d2, appendEntry key value date time lu d ≠ Except.ok d2) ∧
      persistedAfterAppend d key value date time lu = d) ∧
    (key ∈ catalogKeys → value.isFiniteb = false →
      appendEntry key value date time lu d = Except.error AppendError.invalidValueError) := by
  by_cases hk : key ∈ catalogKeys
  · have herr : value.isFiniteb = false →
        appendEntry key value date time lu d = Except.error AppendError.invalidValueError := by
      intro hv
      cases value with
      | num q => simp [JSNum.isFiniteb] at hv
      | nan => simp [appendEntry, hk]
      | inf => simp [appendEntry, hk]
      | negInf => simp [appendEntry, hk]
    refine ⟨fun h => absurd hk h, ?_, fun _ hv => herr hv⟩
    intro hv
    refine ⟨?_, ?_⟩
    · intro d2 hok
      rw [herr hv] at hok
      exact Except.noConfusion hok
    · simp [persistedAfterAppend, herr hv]
  · have herr : appendEntry key value date time lu d = Except.error AppendError.validationError := by
      simp [appendEntry, hk]
    refine ⟨fun _ => ⟨herr, by simp [persistedAfterAppend, herr]⟩, ?_, fun h => absurd h hk⟩
    intro _
    refine ⟨?_, by simp [persistedAfterAppend, herr]⟩
    intro d2 hok
    rw [herr] at hok
    exact Except.noConfusion hok

/-- Witness for C5: the unknown key "nope" is rejected with `ValidationError`, a NaN
value on the known key "weight" is rejected with `InvalidValueError`, and in the
latter case the persisted empty store stays empty. -/
theorem appendEntry_errors_witness :
    appendEntry "nope" (JSNum.num 1) "d" "t" "lu" [] = Except.error AppendError.validationError ∧
    appendEntry "weight" JSNum.nan "d" "t" "lu" [] = Except.error AppendError.invalidValueError ∧
    persistedAfterAppend [] "weight" JSNum.nan "d" "t" "lu" = [] :=
  ⟨((appendEntry_errors "nope" (JSNum.num 1) "d" "t" "lu" []).1 (by decide)).1,
   (appendEntry_errors "weight" JSNum.nan "d" "t" "lu" []).2.2 (by decide) rfl,
   ((appendEntry_errors "weight" JSNum.nan "d" "t" "lu" []).2.1 rfl).2⟩

/-- C6: a successful `appendEntry` to one key leaves the Metric of every other key,
and in particular its entry sequence, unchanged in the returned snapshot. -/
theorem appendEntry_isolation (k k2 : String) (value : JSNum) (date time lu : String)
    (d d2 : MetricData) (hne : k2 ≠ k)
    (h : appendEntry k value date time lu d = Except.ok d2) :
    d2.lookup k2 = d.lookup k2 ∧
    (d2.lookup k2).map Metric.entries = (d.lookup k2).map Metric.entries := by
  by_cases hk : k ∈ catalogKeys
  · cases value with
    | num q =>
      simp only [appendEntry, if_pos hk, Except.ok.injEq] at h
      rw [← h]
      constructor
      · exact lookup_setKey_ne d k k2 _ hne
      · rw [lookup_setKey_ne d k k2 _ hne]
    | nan => simp [appendEntry, hk] at h
    | inf => simp [appendEntry, hk] at h
    | negInf => simp [appendEntry, hk] at h
  · simp [appendEntry, hk] at h

/-- Witness for C6: appending value 70 to `weight` in the empty store leaves the
(absent) `chest` record unchanged. -/
theorem appendEntry_isolation_witness :
    weightOnce.lookup "chest" = ([] : MetricData).lookup "chest" ∧
    (weightOnce.lookup "chest").map Metric.entries =
      (([] : MetricData).lookup "chest").map Metric.entries :=
  appendEntry_isolation "weight" "chest" (JSNum.num 70) "2024-01-01" "08:00" "Jan 1"
    [] weightOnce (by decide) rfl

/-- C1: after any non-empty sequence of valid appends to a previously empty metric,
the stored entry list is exactly the appended entries in strict reverse insertion
order — the most recently appended entry at the head, the first appended at the
tail, one entry per append — and `currentValue` equals the head entry's value. -/
theorem append_reverse_order (key : String) (hk : key ∈ catalogKeys)
    (ops : List AppendOp) (d : MetricData) (hne : ops ≠ [])
    (hd : metricEntries d key = []) :
    (runAppendOps key ops d).lookup key =
      some ⟨(ops.map (mkEntry key)).reverse, (lastOp ops).value, (lastOp ops).lastUpdated⟩ ∧
    (ops.map (mkEntry key)).reverse.head? = some (mkEntry key (lastOp ops)) ∧
    (ops.map (mkEntry key)).reverse.getLast? = some (mkEntry key (ops.headD default)) ∧
    (ops.map (mkEntry key)).reverse.length = ops.length ∧
    (mkEntry key (lastOp ops)).value = (lastOp ops).value := by
  have hlast : ops.getLast? = some (lastOp ops) := by
    cases hq : ops.getLast? with
    | none => exact absurd (List.getLast?_eq_none_iff.mp hq) hne
    | some a => simp [lastOp, hq]
  have h1 := runAppendOps_lookup key hk ops d hne
  rw [hd, List.append_nil] at h1
  refine ⟨h1, ?_, ?_, by simp, rfl⟩
  · rw [List.head?_reverse, List.getLast?_map, hlast]
    rfl
  · rw [List.getLast?_reverse, List.head?_map]
    cases ops with
    | nil => exact absurd rfl hne
    | cons op rest => rfl

/-- Witness for C1: appending 70 then 71 to `weight` in the empty store yields the
two entries newest-first with current value 71. -/
theorem append_reverse_order_witness :
    (runAppendOps "weight" [opA, opB] []).lookup "weight" =
      some ⟨([opA, opB].map (mkEntry "weight")).reverse, (lastOp [opA, opB]).value,
            (lastOp [opA, opB]).lastUpdated⟩ ∧
    ([opA, opB].map (mkEntry "weight")).reverse.head? =
      some (mkEntry "weight" (lastOp [opA, opB])) ∧
    ([opA, opB].map (mkEntry "weight")).reverse.getLast? =
      some (mkEntry "weight" ([opA, opB].headD default)) ∧
    ([opA, opB].map (mkEntry "weight")).reverse.length = [opA, opB].length ∧
    (mkEntry "weight" (lastOp [opA, opB])).value = (lastOp [opA, opB]).value :=
  append_reverse_order "weight" (by decide) [opA, opB] [] (by decide) rfl

end ClientMetrics
